import Mathlib

/-!
Shallow embedding of `src/old-temp/27592/moschettimichael_10726_3045693_hw1d.cpp`.

The program accumulates the harmonic series 1/1 + 1/2 + ... + 1/100 in
ascending and in descending order, once with a `float` accumulator and once
with a `double` accumulator, and prints the four sums and the two
differences.

IEEE-754 binary32 / binary64 arithmetic is modelled exactly: every
floating-point value occurring in this program is a dyadic rational in the
normal range (all sums lie between 1/100 and 6, and the differences stay
far above the subnormal threshold), so each value is represented by the
integer `v * 2^S` for a fixed scale `S = 80`, and each operation is the
exact rational operation followed by round-to-nearest, ties-to-even, at 24
(binary32) or 53 (binary64) significand bits.  C++ semantics of the two
loop bodies:

  `f1 += 1.0 / i`  : `1.0 / i` is a double division (the literal `1.0` is a
                     double), `f1` is promoted to double, the addition is a
                     double addition, and the result is converted back to
                     float on assignment;
  `dub1 += 1.0 / i`: double division followed by double addition.
-/

namespace Hw1d

/-- Fixed-point scale: a model value `n : ℤ` stands for the real `n / 2^S`. -/
def S : ℕ := 80

/-- Power of two as an integer, via `Nat.pow` (fast to evaluate). -/
def pow2 (n : ℕ) : ℤ := ((2 ^ n : ℕ) : ℤ)

/-- For `b > 0`: decide `2^k ≤ a / b` without leaving ℤ. -/
def pow2LE (k : ℤ) (a b : ℤ) : Bool :=
  if 0 ≤ k then decide (b * pow2 k.toNat ≤ a) else decide (b ≤ a * pow2 (-k).toNat)

/-- Binary search for the floor of the base-2 logarithm of `a / b`:
maintains `2^lo ≤ a / b < 2^hi` and narrows `[lo, hi)` until `hi = lo + 1`.
Every value occurring in this program lies in `[2^(-64), 2^64)`, so the
initial bracket `[-64, 64)` holds and seven halvings settle it (the bracket
width stays a power of two, so the midpoint is exact). -/
def ilog2Aux (a b : ℤ) : ℕ → ℤ → ℤ → ℤ
  | 0, lo, _ => lo
  | n + 1, lo, hi =>
    if hi ≤ lo + 1 then lo
    else
      let mid := (lo + hi) / 2
      if pow2LE mid a b then ilog2Aux a b n mid hi else ilog2Aux a b n lo mid

/-- Floor of the base-2 logarithm of the positive rational `a / b`. -/
def ilog2 (a b : ℤ) : ℤ := ilog2Aux a b 8 (-64) 64

/-- Round the rational `num / den` (both positive) to the nearest integer,
ties to even. -/
def rne (num den : ℤ) : ℤ :=
  let q := num / den
  let r := num % den
  if 2 * r < den then q
  else if den < 2 * r then q + 1
  else if q % 2 = 0 then q else q + 1

/-- Round the positive rational `a / b` to a floating-point value with a
`p`-bit significand (round to nearest, ties to even): the significand `m`
and the exponent `e`, with value `m * 2^e`. -/
def roundPos (p : ℕ) (a b : ℤ) : ℤ × ℤ :=
  let k := ilog2 a b
  let s : ℤ := (p : ℤ) - 1 - k
  let m := if 0 ≤ s then rne (a * pow2 s.toNat) b else rne a (b * pow2 (-s).toNat)
  (m, k - (p : ℤ) + 1)

/-- Dyadic value `m * 2^e` as the scaled integer `m * 2^(e+S)`.  All
exponents occurring in this program satisfy `e + S ≥ 0`; the truncating
branch is never taken. -/
def toScaled (m e : ℤ) : ℤ :=
  if 0 ≤ e + (S : ℤ) then m * pow2 (e + (S : ℤ)).toNat
  else m / pow2 (-(e + (S : ℤ))).toNat

/-- Round the positive rational `a / b` at `p` significand bits, as a scaled
integer. -/
def roundScaled (p : ℕ) (a b : ℤ) : ℤ :=
  match roundPos p a b with
  | (m, e) => toScaled m e

/-- Round the rational `a / b` (`b > 0`, any sign of `a`) at `p` significand
bits; IEEE rounding is symmetric in the sign. -/
def roundQ (p : ℕ) (a b : ℤ) : ℤ :=
  if a = 0 then 0
  else if 0 < a then roundScaled p a b
  else - roundScaled p (-a) b

/-- Embedding of `1.0 / i` from the loop bodies: IEEE binary64 division of
1 by the loop variable (the literal `1.0` makes the division a double
division). -/
def divTerm (i : ℤ) : ℤ := roundQ 53 1 i

/-- Embedding of `dub += t`: IEEE binary64 addition of a double value `t`
to the double accumulator. -/
def dadd (x t : ℤ) : ℤ := roundQ 53 (x + t) (pow2 S)

/-- Embedding of `f += t` with `f : float` and `t : double`: `f` is
promoted to double, the addition is performed in binary64, and the sum is
rounded to binary32 on assignment. -/
def fadd (x t : ℤ) : ℤ := roundQ 24 (dadd x t) (pow2 S)

/-- The first loop, `for (int i = 1; i < 101; i++) { f1 += 1.0 / i;
dub1 += 1.0 / i; }`, as a fuel-indexed step function (the fuel only bounds
the number of iterations; `101` covers the whole loop). -/
def loopUp : ℕ → ℤ → ℤ → ℤ → ℤ × ℤ
  | 0, _, f1, dub1 => (f1, dub1)
  | fuel + 1, i, f1, dub1 =>
    if i < 101 then loopUp fuel (i + 1) (fadd f1 (divTerm i)) (dadd dub1 (divTerm i))
    else (f1, dub1)

/-- The second loop, `for (int i = 100; i > 0; i--) { f2 += 1.0 / i;
dub2 += 1.0 / i; }`. -/
def loopDown : ℕ → ℤ → ℤ → ℤ → ℤ × ℤ
  | 0, _, f2, dub2 => (f2, dub2)
  | fuel + 1, i, f2, dub2 =>
    if 0 < i then loopDown fuel (i - 1) (fadd f2 (divTerm i)) (dadd dub2 (divTerm i))
    else (f2, dub2)

/-- Final value of `f1` (float accumulator, ascending loop). -/
def f1 : ℤ := (loopUp 101 1 0 0).1

/-- Final value of `dub1` (double accumulator, ascending loop). -/
def dub1 : ℤ := (loopUp 101 1 0 0).2

/-- Final value of `f2` (float accumulator, descending loop). -/
def f2 : ℤ := (loopDown 101 100 0 0).1

/-- Final value of `dub2` (double accumulator, descending loop). -/
def dub2 : ℤ := (loopDown 101 100 0 0).2

/-- Sequence of values the loop variable `i` of the ascending loop takes
(the divisors used by that loop). -/
def loopUpTrace : ℕ → ℤ → List ℤ
  | 0, _ => []
  | fuel + 1, i => if i < 101 then i :: loopUpTrace fuel (i + 1) else []

/-- Sequence of values the loop variable `i` of the descending loop takes. -/
def loopDownTrace : ℕ → ℤ → List ℤ
  | 0, _ => []
  | fuel + 1, i => if 0 < i then i :: loopDownTrace fuel (i - 1) else []

/-- Divisors used by the ascending loop. -/
def upDivisors : List ℤ := loopUpTrace 101 1

/-- Divisors used by the descending loop. -/
def downDivisors : List ℤ := loopDownTrace 101 100

/-- One float-accumulator step of either loop: add `1.0 / i`. -/
def floatStep (a i : ℤ) : ℤ := fadd a (divTerm i)

/-- One double-accumulator step of either loop: add `1.0 / i`. -/
def doubleStep (a i : ℤ) : ℤ := dadd a (divTerm i)

/-- Variant read from the spec sentence behind claim C2, for comparison:
the quotient `1 / i` as a 32-bit float division (binary32 rounding of the
exact quotient).  The source instead divides in binary64. -/
def floatQuot (i : ℤ) : ℤ := roundQ 24 1 i

/-- Variant read from the spec sentence behind claim C2, for comparison:
a float-accumulator step in which the term is the 32-bit quotient and the
addition is a binary32 addition (everything in the reduced precision). -/
def floatOnlyStep (a i : ℤ) : ℤ := roundQ 24 (a + floatQuot i) (pow2 S)

/-- Descending float accumulation under claim C2's reading: every
operation in binary32. -/
def loopDownFloatOnly : ℕ → ℤ → ℤ → ℤ
  | 0, _, f2 => f2
  | fuel + 1, i, f2 =>
    if 0 < i then loopDownFloatOnly fuel (i - 1) (floatOnlyStep f2 i) else f2

/-- Float accumulation of the ascending loop on its own (claim C9's
independent-loop implementation). -/
def loopUpFloat : ℕ → ℤ → ℤ → ℤ
  | 0, _, f1 => f1
  | fuel + 1, i, f1 =>
    if i < 101 then loopUpFloat fuel (i + 1) (fadd f1 (divTerm i)) else f1

/-- Double accumulation of the ascending loop on its own. -/
def loopUpDouble : ℕ → ℤ → ℤ → ℤ
  | 0, _, dub1 => dub1
  | fuel + 1, i, dub1 =>
    if i < 101 then loopUpDouble fuel (i + 1) (dadd dub1 (divTerm i)) else dub1

/-- Float accumulation of the descending loop on its own. -/
def loopDownFloat : ℕ → ℤ → ℤ → ℤ
  | 0, _, f2 => f2
  | fuel + 1, i, f2 =>
    if 0 < i then loopDownFloat fuel (i - 1) (fadd f2 (divTerm i)) else f2

/-- Double accumulation of the descending loop on its own. -/
def loopDownDouble : ℕ → ℤ → ℤ → ℤ
  | 0, _, dub2 => dub2
  | fuel + 1, i, dub2 =>
    if 0 < i then loopDownDouble fuel (i - 1) (dadd dub2 (divTerm i)) else dub2

/-- Embedding of the expression `f1 - f2` of line 26: a binary32
subtraction of two float values. -/
def floatSub (x y : ℤ) : ℤ := roundQ 24 (x - y) (pow2 S)

/-- Embedding of the expression `dub1 - dub2` of line 27: a binary64
subtraction of two double values. -/
def doubleSub (x y : ℤ) : ℤ := roundQ 53 (x - y) (pow2 S)

/-- The four `cout` lines, in source order, abstracted over the fixed
numeral-rendering function `r` that `operator<<` applies to a value. -/
def outputLines (r : ℤ → String) : List String :=
  ["Float forward: " ++ r f1 ++ ", Float backward: " ++ r f2,
   "Double forward: " ++ r dub1 ++ ", Double backward: " ++ r dub2,
   "Float difference: " ++ r (floatSub f1 f2),
   "Double difference: " ++ r (doubleSub dub1 dub2)]

/-- One run of `main`: the standard-output lines and the exit code.  The
program reads nothing, so the process environment and argument list are
ignored; `return 0` is the only exit. -/
def run (r : ℤ → String) (_env : List (String × String)) (_args : List String) :
    List String × ℤ :=
  (outputLines r, 0)

/-- One step of the loops in exact rational arithmetic: add the exact
`1 / i`, with no rounding. -/
def exactStep (a : ℚ) (i : ℤ) : ℚ := a + 1 / (i : ℚ)

/-- Exact rational reciprocal of a divisor. -/
def recip (i : ℤ) : ℚ := 1 / (i : ℚ)

/-- Exact value of the harmonic number H(100). -/
def harmonic100 : ℚ := ((List.range' 1 100).map (fun n : ℕ => (1 : ℚ) / n)).sum

/-! ## Helper lemmas -/

/-- The interleaved ascending loop is the pair of folds of its two step
functions over its divisor trace. -/
theorem loopUp_eq_foldl (fuel : ℕ) :
    ∀ (i f d : ℤ),
      loopUp fuel i f d =
        (List.foldl floatStep f (loopUpTrace fuel i),
         List.foldl doubleStep d (loopUpTrace fuel i)) := by
  induction fuel with
  | zero => intro i f d; rfl
  | succ n ih =>
    intro i f d
    by_cases h : i < 101
    · simp only [loopUp, loopUpTrace, if_pos h, List.foldl_cons, ih]
      rfl
    · simp only [loopUp, loopUpTrace, if_neg h, List.foldl_nil]

/-- The interleaved descending loop is the pair of folds of its two step
functions over its divisor trace. -/
theorem loopDown_eq_foldl (fuel : ℕ) :
    ∀ (i f d : ℤ),
      loopDown fuel i f d =
        (List.foldl floatStep f (loopDownTrace fuel i),
         List.foldl doubleStep d (loopDownTrace fuel i)) := by
  induction fuel with
  | zero => intro i f d; rfl
  | succ n ih =>
    intro i f d
    by_cases h : 0 < i
    · simp only [loopDown, loopDownTrace, if_pos h, List.foldl_cons, ih]
      rfl
    · simp only [loopDown, loopDownTrace, if_neg h, List.foldl_nil]

/-- The interleaved ascending loop computes exactly what the two
single-accumulator ascending loops compute. -/
theorem loopUp_eq_pair (fuel : ℕ) :
    ∀ (i f d : ℤ), loopUp fuel i f d = (loopUpFloat fuel i f, loopUpDouble fuel i d) := by
  induction fuel with
  | zero => intro i f d; rfl
  | succ n ih =>
    intro i f d
    by_cases h : i < 101
    · simp only [loopUp, loopUpFloat, loopUpDouble, if_pos h, ih]
    · simp only [loopUp, loopUpFloat, loopUpDouble, if_neg h]

/-- The interleaved descending loop computes exactly what the two
single-accumulator descending loops compute. -/
theorem loopDown_eq_pair (fuel : ℕ) :
    ∀ (i f d : ℤ), loopDown fuel i f d = (loopDownFloat fuel i f, loopDownDouble fuel i d) := by
  induction fuel with
  | zero => intro i f d; rfl
  | succ n ih =>
    intro i f d
    by_cases h : 0 < i
    · simp only [loopDown, loopDownFloat, loopDownDouble, if_pos h, ih]
    · simp only [loopDown, loopDownFloat, loopDownDouble, if_neg h]

/-- Exact rational accumulation is the starting value plus the sum of the
reciprocals of the list. -/
theorem foldl_exactStep (l : List ℤ) :
    ∀ a : ℚ, List.foldl exactStep a l = a + (l.map recip).sum := by
  induction l with
  | nil => intro a; simp
  | cons x xs ih =>
    intro a
    simp only [List.foldl_cons, List.map_cons, List.sum_cons, ih, exactStep, recip]
    ring

/-- The ascending divisor trace is `[1, 2, ..., 100]`. -/
theorem upDivisors_eq : upDivisors = (List.range' 1 100).map (fun n : ℕ => (n : ℤ)) := by
  decide

/-- The descending divisor trace is the reverse of the ascending one. -/
theorem downDivisors_eq : downDivisors = upDivisors.reverse := by
  decide

set_option maxRecDepth 40000 in
set_option maxHeartbeats 8000000 in
/-- Final values of the ascending loop, evaluated. -/
theorem loopUp_val :
    loopUp 101 1 0 0 = (6271155115298299167375360, 6271154617162978876719104) := by
  decide

set_option maxRecDepth 40000 in
set_option maxHeartbeats 8000000 in
/-- Final values of the descending loop, evaluated. -/
theorem loopDown_val :
    loopDown 101 100 0 0 = (6271153962376794560528384, 6271154617162979950460928) := by
  decide

/-- Final `f1`, evaluated. -/
theorem f1_val : f1 = 6271155115298299167375360 := by
  unfold f1; rw [loopUp_val]

/-- Final `dub1`, evaluated. -/
theorem dub1_val : dub1 = 6271154617162978876719104 := by
  unfold dub1; rw [loopUp_val]

/-- Final `f2`, evaluated. -/
theorem f2_val : f2 = 6271153962376794560528384 := by
  unfold f2; rw [loopDown_val]

/-- Final `dub2`, evaluated. -/
theorem dub2_val : dub2 = 6271154617162979950460928 := by
  unfold dub2; rw [loopDown_val]

/-! ## Claims -/

set_option maxRecDepth 40000 in
/-- C1: the forward accumulators are the left-to-right fold of adding
`1.0 / n` for n = 1, ..., 100 in ascending order, the backward accumulators
the left-to-right fold over n = 100, ..., 1 in descending order, once for
the float and once for the double accumulator, all starting from 0.0. -/
theorem sums_are_ordered_folds :
    loopUp 101 1 0 0 =
      (List.foldl floatStep 0 upDivisors, List.foldl doubleStep 0 upDivisors) ∧
    loopDown 101 100 0 0 =
      (List.foldl floatStep 0 downDivisors, List.foldl doubleStep 0 downDivisors) ∧
    upDivisors = (List.range' 1 100).map (fun n : ℕ => (n : ℤ)) ∧
    downDivisors = ((List.range' 1 100).map (fun n : ℕ => (n : ℤ))).reverse := by
  refine ⟨loopUp_eq_foldl 101 1 0 0, loopDown_eq_foldl 101 100 0 0, upDivisors_eq, ?_⟩
  rw [downDivisors_eq, upDivisors_eq]

set_option maxRecDepth 40000 in
/-- C2, counterexample: at n = 3 the quotient the code computes (a binary64
division, `1.0` being a double literal) differs from a binary32 quotient,
and already after three iterations of the descending loop the float
accumulator differs from the all-binary32 evaluation the claim asserts. -/
theorem term_not_float_division :
    divTerm 3 ≠ floatQuot 3 ∧ (loopDown 3 100 0 0).1 ≠ loopDownFloatOnly 3 100 0 := by
  constructor
  · decide
  · decide

set_option maxRecDepth 40000 in
/-- C2, amended: each term `1/n` is computed as a 64-bit double division;
the float accumulator update adds that double quotient in double precision
and rounds the sum to 32-bit float, for every n in 1..100 in both loop
directions — and this is not a binary32 division, the two quotients
differing already at n = 3. -/
theorem term_is_double_division :
    f1 = List.foldl
        (fun a i => roundQ 24 (roundQ 53 (a + roundQ 53 1 i) (pow2 S)) (pow2 S))
        0 upDivisors ∧
    f2 = List.foldl
        (fun a i => roundQ 24 (roundQ 53 (a + roundQ 53 1 i) (pow2 S)) (pow2 S))
        0 downDivisors ∧
    roundQ 53 1 3 ≠ roundQ 24 1 3 := by
  have hstep : floatStep =
      fun a i => roundQ 24 (roundQ 53 (a + roundQ 53 1 i) (pow2 S)) (pow2 S) := by
    funext a i
    rfl
  refine ⟨?_, ?_, by decide⟩
  · show (loopUp 101 1 0 0).1 = _
    rw [loopUp_eq_foldl 101 1 0 0, ← hstep]
    exact congrArg (List.foldl floatStep 0) rfl
  · show (loopDown 101 100 0 0).1 = _
    rw [loopDown_eq_foldl 101 100 0 0, ← hstep]
    exact congrArg (List.foldl floatStep 0) rfl

set_option maxRecDepth 40000 in
/-- C3: the single-precision forward and backward sums are not equal, and
the printed float difference `f1 - f2` is nonzero. -/
theorem float_forward_ne_backward :
    f1 ≠ f2 ∧ floatSub f1 f2 ≠ 0 := by
  rw [f1_val, f2_val]
  constructor
  · decide
  · decide

set_option maxRecDepth 40000 in
/-- C4: the absolute difference of the double-precision sums is strictly
smaller than the absolute difference of the single-precision sums (both
pairs share the scale `2^S`, so comparing scaled integers compares the
real values). -/
theorem double_diff_lt_float_diff :
    (dub1 - dub2).natAbs < (f1 - f2).natAbs := by
  rw [f1_val, f2_val, dub1_val, dub2_val]
  decide

set_option maxRecDepth 40000 in
/-- C5: the ascending loop's divisor ranges over 1..100 and the descending
loop's over 100..1, every divisor lies in [1, 100], and zero is never a
divisor, so every division `1.0 / i` is well-defined. -/
theorem divisors_never_zero :
    upDivisors = (List.range' 1 100).map (fun n : ℕ => (n : ℤ)) ∧
    downDivisors = upDivisors.reverse ∧
    upDivisors.all (fun i => decide (1 ≤ i ∧ i ≤ 100)) = true ∧
    downDivisors.all (fun i => decide (1 ≤ i ∧ i ≤ 100)) = true ∧
    (0 : ℤ) ∉ upDivisors ∧ (0 : ℤ) ∉ downDivisors := by
  refine ⟨upDivisors_eq, downDivisors_eq, by decide, by decide, by decide, by decide⟩

/-- C6: the program takes no input, and any two runs produce the same
standard-output text and exit code, whatever the process environment and
argument list. -/
theorem output_deterministic :
    ∀ (r : ℤ → String) (env env' : List (String × String)) (args args' : List String),
      run r env args = run r env' args' := by
  intro r env env' args args'
  rfl

/-- C7: the program writes exactly four lines, in this fixed order: the
float sums line, the double sums line, the float difference line, the
double difference line. -/
theorem output_four_lines :
    ∀ r : ℤ → String,
      (run r [] []).1 = outputLines r ∧
      outputLines r =
        ["Float forward: " ++ r f1 ++ ", Float backward: " ++ r f2,
         "Double forward: " ++ r dub1 ++ ", Double backward: " ++ r dub2,
         "Float difference: " ++ r (floatSub f1 f2),
         "Double difference: " ++ r (doubleSub dub1 dub2)] ∧
      (outputLines r).length = 4 := by
  intro r
  exact ⟨rfl, rfl, rfl⟩

/-- C8: the program always terminates with exit code 0, regardless of the
process environment and argument list. -/
theorem exit_code_zero :
    ∀ (r : ℤ → String) (env : List (String × String)) (args : List String),
      (run r env args).2 = 0 := by
  intro r env args
  rfl

/-- C9: the single loop that interleaves the float and the double
accumulation computes exactly what four independent single-accumulator
loops compute; neither accumulator ever affects the other. -/
theorem interleaved_eq_independent :
    (∀ (fuel : ℕ) (i f d : ℤ),
        loopUp fuel i f d = (loopUpFloat fuel i f, loopUpDouble fuel i d)) ∧
    (∀ (fuel : ℕ) (i f d : ℤ),
        loopDown fuel i f d = (loopDownFloat fuel i f, loopDownDouble fuel i d)) ∧
    loopUp 101 1 0 0 = (loopUpFloat 101 1 0, loopUpDouble 101 1 0) ∧
    loopDown 101 100 0 0 = (loopDownFloat 101 100 0, loopDownDouble 101 100 0) :=
  ⟨fun fuel i f d => loopUp_eq_pair fuel i f d,
   fun fuel i f d => loopDown_eq_pair fuel i f d,
   loopUp_eq_pair 101 1 0 0,
   loopDown_eq_pair 101 100 0 0⟩

/-- C10: evaluated in exact rational arithmetic, the ascending and the
descending accumulation agree exactly, both equal to the harmonic number
H(100); the printed differences are rounding artifacts only. -/
theorem exact_sums_equal_harmonic :
    List.foldl exactStep 0 upDivisors = harmonic100 ∧
    List.foldl exactStep 0 downDivisors = harmonic100 := by
  have hfun : (recip ∘ fun n : ℕ => (n : ℤ)) = fun n : ℕ => (1 : ℚ) / n := by
    funext n
    simp [Function.comp_apply, recip]
  have hup : (upDivisors.map recip).sum = harmonic100 := by
    rw [upDivisors_eq, List.map_map, hfun, harmonic100]
  constructor
  · rw [foldl_exactStep, hup, zero_add]
  · rw [foldl_exactStep, downDivisors_eq, List.map_reverse, List.sum_reverse, hup, zero_add]

end Hw1d
